import Mathlib

/-!
Shallow embedding of `src/osl_schema/gather_categories.py` and of the
per-entity enrichment loop of `src/osl_schema/add_ontology_matches.py`.

The external wiki query interface (`query_return_dict_list` over
`osw_obj.mw_site.ask`) is abstracted as a `Store`: every query issued by the
traversal code has the shape `[[<selector>]]|?HasName=name`, so each result row
is a dictionary with exactly the keys `title` and `name` (the `name` value is
the empty string when the store returns no value, see
`query_return_dict_list`, lines 57-62).  A `Store` maps each of the four
selector shapes used by the code to its result rows:
  * `selfLookup c`     models `[[:c]]|?HasName=name`            (lines 91-94, 183-186)
  * `subclassOf c`     models `[[SubClassOf::c]]|?HasName=name` (lines 99-102)
  * `metaCategoryOf c` models `[[-HasMetaCategory::c]]|?HasName=name` (lines 155-158)
  * `hasSchema c`      models `[[HasSchema::c]]|?HasName=name`  (lines 187-190)

Python `None`/missing `fulltext` is folded into the empty string: the code only
ever tests titles for truthiness (`if fpt`), which for strings is `≠ ""`.

Effects are made explicit: each traversal function returns the list of queries
it issued (`AskQuery`), the warnings it logged, and either its result or the
exception it raised (`Except Err`).
-/

/-- One result row: the `title`/`name` string dictionary built by
`query_return_dict_list`. -/
structure CategoryRecord where
  title : String
  name : String
deriving DecidableEq, Repr

/-- The abstracted ask-query interface: one field per selector shape used by
`gather_categories.py`. -/
structure Store where
  selfLookup : String → List CategoryRecord
  subclassOf : String → List CategoryRecord
  metaCategoryOf : String → List CategoryRecord
  hasSchema : String → List CategoryRecord

/-- A query issued against the store, tagged by selector shape. -/
inductive AskQuery where
  | selfQ (c : String)
  | subQ (c : String)
  | metaQ (c : String)
  | schemaQ (c : String)
deriving DecidableEq, Repr

/-- Exceptions raised by the Python code: `ValueError` (line 96) and the
`IndexError` of an out-of-range `dict_list[0]` / `instances[0]` access
(lines 257, 318). -/
inductive Err where
  | valueError (msg : String)
  | indexError
deriving DecidableEq, Repr

/-- The warning logged at line 89:
`f"Max depth {max_depth} reached at category {category_fpt}"`. -/
def truncMsg (max_depth : Nat) (category_fpt : String) : String :=
  "Max depth " ++ toString max_depth ++ " reached at category " ++ category_fpt

/-- The deduplication loop of lines 116-122 (also lines 228-234): walk the list,
keep an item when its title is truthy and not seen before, recording seen
titles in `fpt_list`. -/
def dedupByTitleGo (fpt_list : List String) : List CategoryRecord → List CategoryRecord
  | [] => []
  | item :: rest =>
    if item.title ≠ "" ∧ item.title ∉ fpt_list then
      item :: dedupByTitleGo (fpt_list ++ [item.title]) rest
    else
      dedupByTitleGo fpt_list rest

/-- Deduplication by `title`, first occurrence wins, falsy titles dropped
(lines 116-124 and 227-235). -/
def dedupByTitle (items : List CategoryRecord) : List CategoryRecord :=
  dedupByTitleGo [] items

/-- Result triple of an instrumented traversal call: queries issued, warnings
logged, and the returned value or raised exception. -/
abbrev Traced (α : Type) := List AskQuery × List String × Except Err α

/-- The `for result in results2` loop of `get_subcategories` (lines 105-114):
for each child row with a truthy title, recurse (`rec`) and concatenate the
returned rows; an exception raised inside the loop aborts it and propagates,
keeping the queries and warnings already produced. -/
def subcatLoop (rec : String → Traced (List CategoryRecord)) :
    List CategoryRecord → Traced (List CategoryRecord)
  | [] => ([], [], .ok [])
  | child :: rest =>
    if child.title = "" then subcatLoop rec rest
    else
      match rec child.title with
      | (qs₁, ws₁, .error e) => (qs₁, ws₁, .error e)
      | (qs₁, ws₁, .ok subs) =>
        match subcatLoop rec rest with
        | (qs₂, ws₂, .error e) => (qs₁ ++ qs₂, ws₁ ++ ws₂, .error e)
        | (qs₂, ws₂, .ok more) => (qs₁ ++ qs₂, ws₁ ++ ws₂, .ok (subs ++ more))

/-- `get_subcategories` (lines 67-124), in fuel form.  The Python recursion
carries `depth` and stops when `depth > max_depth` (line 88); the fuel is
`max_depth + 1 - depth`, so fuel `0` is exactly `depth > max_depth` and each
recursive call at `depth + 1` has fuel one less.  At fuel `0` the warning of
line 89 is logged and `[]` returned; otherwise: self-lookup (raise `ValueError`
when empty, line 96), seed with `result1[0]` (line 98), extend with the
subclass rows (line 104), recurse on each child (lines 105-114), dedup
(lines 116-124). -/
def get_subcategoriesF (store : Store) (max_depth : Nat) :
    Nat → String → Traced (List CategoryRecord)
  | 0, category_fpt =>
    ([], [truncMsg max_depth category_fpt], .ok [])
  | fuel + 1, category_fpt =>
    match store.selfLookup category_fpt with
    | [] =>
      ([.selfQ category_fpt], [],
       .error (.valueError ("Category " ++ category_fpt ++ " not found")))
    | r1 :: _ =>
      let results2 := store.subclassOf category_fpt
      match subcatLoop (fun t => get_subcategoriesF store max_depth fuel t) results2 with
      | (qs, ws, .error e) =>
        (.selfQ category_fpt :: .subQ category_fpt :: qs, ws, .error e)
      | (qs, ws, .ok subs) =>
        (.selfQ category_fpt :: .subQ category_fpt :: qs, ws,
         .ok (dedupByTitle ((r1 :: results2) ++ subs)))

/-- `get_subcategories(osw_obj, category_fpt, depth, max_depth)`
(lines 67-124): wrapper translating the `depth`/`max_depth` pair to fuel. -/
def get_subcategories (store : Store) (category_fpt : String)
    (depth : Nat) (max_depth : Nat) : Traced (List CategoryRecord) :=
  get_subcategoriesF store max_depth (max_depth + 1 - depth) category_fpt

/-- `get_subcategories_and_metacategories` (lines 127-163): run
`get_subcategories` at depth 0, then for each returned row with a truthy title
issue a meta-category query and append all its rows; no deduplication of the
appended part (lines 151-163). -/
def get_subcategories_and_metacategories (store : Store) (category_fpt : String)
    (max_depth : Nat) : Traced (List CategoryRecord) :=
  match get_subcategories store category_fpt 0 max_depth with
  | (qs, ws, .error e) => (qs, ws, .error e)
  | (qs, ws, .ok subcategories) =>
    let withTitle := subcategories.filter (fun s => s.title ≠ "")
    let metaQs := withTitle.map (fun s => AskQuery.metaQ s.title)
    let metacategories := withTitle.flatMap (fun s => store.metaCategoryOf s.title)
    (qs ++ metaQs, ws, .ok (subcategories ++ metacategories))

/-- `get_instances` (lines 166-191): self-lookup rows followed by
schema-assignment rows, concatenated, no dedup, no existence check. -/
def get_instances (store : Store) (category_fpt : String) :
    List AskQuery × List CategoryRecord :=
  ([.selfQ category_fpt, .schemaQ category_fpt],
   store.selfLookup category_fpt ++ store.hasSchema category_fpt)

/-- `get_all_instances_and_subcategories` (lines 194-235): subcategories and
meta-categories, then per returned row with a truthy title its instances, all
concatenated and deduplicated by title (lines 227-235). -/
def get_all_instances_and_subcategories (store : Store) (category_fpt : String)
    (max_depth : Nat) : Traced (List CategoryRecord) :=
  match get_subcategories_and_metacategories store category_fpt max_depth with
  | (qs, ws, .error e) => (qs, ws, .error e)
  | (qs, ws, .ok subcategories) =>
    let withTitle := subcategories.filter (fun s => s.title ≠ "")
    let instQs := withTitle.flatMap (fun s => (get_instances store s.title).1)
    let instances := withTitle.flatMap (fun s => (get_instances store s.title).2)
    (qs ++ instQs, ws, .ok (dedupByTitle (subcategories ++ instances)))

/-- One rendered line `"<title>",  # <name>` plus newline (lines 259, 320). -/
def renderLine (cat : CategoryRecord) : String :=
  "\"" ++ cat.title ++ "\",  # " ++ cat.name ++ "\n"

/-- `append_dict_to_string` (lines 238-260): header naming `dict_list[0]`, then
one line per record.  `none` models the `IndexError` raised by `dict_list[0]`
on an empty list (line 257). -/
def append_dict_to_string (string : String) (dict_list : List CategoryRecord)
    (note : String) : Option String :=
  match dict_list with
  | [] => none
  | d0 :: _ =>
    some (string ++ "\n# " ++ d0.name ++ " " ++ note ++ "\n" ++
      String.join (dict_list.map renderLine))

/-- `append_instances_to_string` (lines 295-321): fetch the instances, print
`instances[0].name` as header and render only `instances[1:]`.  `none` models
the `IndexError` of `instances[0]` on an empty result (line 318). -/
def append_instances_to_string (string : String) (category_fpt : String)
    (store : Store) : Option String :=
  match (get_instances store category_fpt).2 with
  | [] => none
  | i0 :: rest =>
    some (string ++ "\n# Instances of " ++ i0.name ++ "\n" ++
      String.join (rest.map renderLine))

/-- `append_all_subcategories_and_instances_to_string` (lines 357-386):
aggregate with `max_depth=10`, then `append_dict_to_string` with the note
`"and all subcategories and instances"`; both the traversal `ValueError` and
the renderer `IndexError` propagate. -/
def append_all_subcategories_and_instances_to_string (string : String)
    (category_fpt : String) (store : Store) : Except Err String :=
  match get_all_instances_and_subcategories store category_fpt 10 with
  | (_, _, .error e) => .error e
  | (_, _, .ok all_items) =>
    match append_dict_to_string string all_items "and all subcategories and instances" with
    | none => .error .indexError
    | some s => .ok s

/-! ### Properties of the deduplication loop -/

/-- Every record kept by the dedup loop has a truthy title not seen before. -/
lemma dedupByTitleGo_mem : ∀ (l : List CategoryRecord) (seen : List String)
    (r : CategoryRecord), r ∈ dedupByTitleGo seen l →
    r ∈ l ∧ r.title ∉ seen ∧ r.title ≠ ""
  | [], _, _, h => by simp [dedupByTitleGo] at h
  | item :: rest, seen, r, h => by
    rw [dedupByTitleGo] at h
    by_cases hc : item.title ≠ "" ∧ item.title ∉ seen
    · rw [if_pos hc] at h
      rcases List.mem_cons.mp h with h | h
      · subst h; exact ⟨List.mem_cons_self _ _, hc.2, hc.1⟩
      · obtain ⟨h1, h2, h3⟩ := dedupByTitleGo_mem rest (seen ++ [item.title]) r h
        rw [List.mem_append] at h2
        push_neg at h2
        exact ⟨List.mem_cons_of_mem _ h1, h2.1, h3⟩
    · rw [if_neg hc] at h
      obtain ⟨h1, h2, h3⟩ := dedupByTitleGo_mem rest seen r h
      exact ⟨List.mem_cons_of_mem _ h1, h2, h3⟩

/-- The titles of the dedup loop's output are pairwise distinct. -/
lemma dedupByTitleGo_nodup : ∀ (l : List CategoryRecord) (seen : List String),
    ((dedupByTitleGo seen l).map (fun r => r.title)).Nodup
  | [], _ => by simp [dedupByTitleGo]
  | item :: rest, seen => by
    rw [dedupByTitleGo]
    by_cases hc : item.title ≠ "" ∧ item.title ∉ seen
    · rw [if_pos hc]
      rw [List.map_cons, List.nodup_cons]
      refine ⟨?_, dedupByTitleGo_nodup rest (seen ++ [item.title])⟩
      intro hmem
      obtain ⟨r, hr, hrt⟩ := List.mem_map.mp hmem
      obtain ⟨-, h2, -⟩ := dedupByTitleGo_mem _ _ _ hr
      exact h2 (List.mem_append.mpr (Or.inr (by simp [hrt])))
    · rw [if_neg hc]
      exact dedupByTitleGo_nodup rest seen

/-- Each kept record is the *first* record of the input carrying its title. -/
lemma dedupByTitleGo_find : ∀ (l : List CategoryRecord) (seen : List String)
    (r : CategoryRecord), r ∈ dedupByTitleGo seen l →
    l.find? (fun x => x.title == r.title) = some r
  | [], _, _, h => by simp [dedupByTitleGo] at h
  | item :: rest, seen, r, h => by
    rw [dedupByTitleGo] at h
    by_cases hc : item.title ≠ "" ∧ item.title ∉ seen
    · rw [if_pos hc] at h
      rcases List.mem_cons.mp h with h | h
      · subst h
        exact List.find?_cons_of_pos _ (by simp)
      · obtain ⟨-, h2, -⟩ := dedupByTitleGo_mem _ _ _ h
        have hne : item.title ≠ r.title := by
          intro he
          exact h2 (List.mem_append.mpr (Or.inr (by simp [he])))
        rw [List.find?_cons_of_neg _ (by simpa using hne)]
        exact dedupByTitleGo_find rest (seen ++ [item.title]) r h
    · rw [if_neg hc] at h
      obtain ⟨-, h2, h3⟩ := dedupByTitleGo_mem _ _ _ h
      have hne : item.title ≠ r.title := by
        intro he
        rcases not_and_or.mp hc with hc1 | hc1
        · exact h3 (he ▸ (not_not.mp hc1))
        · exact h2 (he ▸ (not_not.mp hc1))
      rw [List.find?_cons_of_neg _ (by simpa using hne)]
      exact dedupByTitleGo_find rest seen r h

/-- Truthy titles survive deduplication. -/
lemma dedupByTitleGo_mem_title : ∀ (l : List CategoryRecord) (seen : List String)
    (t : String), t ≠ "" → t ∉ seen → t ∈ l.map (fun r => r.title) →
    t ∈ (dedupByTitleGo seen l).map (fun r => r.title)
  | [], _, _, _, _, hmem => by simp at hmem
  | item :: rest, seen, t, ht, hseen, hmem => by
    rw [dedupByTitleGo]
    by_cases heq : item.title = t
    · have hc : item.title ≠ "" ∧ item.title ∉ seen := by
        rw [heq]; exact ⟨ht, hseen⟩
      rw [if_pos hc, List.map_cons]
      exact List.mem_cons.mpr (Or.inl heq.symm)
    · have hmem' : t ∈ rest.map (fun r => r.title) := by
        rcases List.mem_map.mp hmem with ⟨r, hr, hrt⟩
        rcases List.mem_cons.mp hr with hr | hr
        · exact absurd (hr ▸ hrt) heq
        · exact List.mem_map.mpr ⟨r, hr, hrt⟩
      by_cases hc : item.title ≠ "" ∧ item.title ∉ seen
      · rw [if_pos hc, List.map_cons]
        refine List.mem_cons.mpr (Or.inr ?_)
        refine dedupByTitleGo_mem_title rest (seen ++ [item.title]) t ht ?_ hmem'
        rw [List.mem_append]
        push_neg
        exact ⟨hseen, by simp [Ne.symm heq]⟩
      · rw [if_neg hc]
        exact dedupByTitleGo_mem_title rest seen t ht hseen hmem'

/-- A truthy title present in the input appears exactly once after dedup. -/
lemma dedupByTitle_countP_eq_one (items : List CategoryRecord) (t : String)
    (ht : t ≠ "") (hmem : t ∈ items.map (fun r => r.title)) :
    (dedupByTitle items).countP (fun r => r.title == t) = 1 := by
  have hnd := dedupByTitleGo_nodup items []
  have hm := dedupByTitleGo_mem_title items [] t ht (by simp) hmem
  rw [dedupByTitle] at *
  have hcount : ((dedupByTitleGo [] items).map (fun r => r.title)).count t =
      (dedupByTitleGo [] items).countP (fun r => r.title == t) := by
    rw [List.count_eq_countP, List.countP_map]
    rfl
  have hle := (List.nodup_iff_count_le_one.mp hnd) t
  have hpos := List.count_pos_iff.mpr hm
  omega

/-! ### A parametric chain store: node `i` has the single subclass `i + 1`.
Titles are the strings `"a"`, `"aa"`, `"aaa"`, … so that distinct nodes have
distinct, truthy titles. -/

/-- Title of chain node `i`: the letter `a` repeated `i + 1` times. -/
def nodeName (i : Nat) : String :=
  String.mk (List.replicate (i + 1) 'a')

/-- Record of chain node `i` (the store returns an empty display name). -/
def chainRec (i : Nat) : CategoryRecord :=
  { title := nodeName i, name := "" }

/-- Partial inverse of `nodeName`. -/
def nodeIndex (t : String) : Option Nat :=
  if 1 ≤ t.length ∧ t = String.mk (List.replicate t.length 'a') then
    some (t.length - 1)
  else
    none

/-- The chain store on `L` nodes `0, …, L-1`: each node resolves to itself and
node `i` has the single subclass `i + 1` (when `i + 1 < L`). -/
def chainStore (L : Nat) : Store where
  selfLookup t :=
    match nodeIndex t with
    | some i => if i < L then [chainRec i] else []
    | none => []
  subclassOf t :=
    match nodeIndex t with
    | some i => if i + 1 < L then [chainRec (i + 1)] else []
    | none => []
  metaCategoryOf _ := []
  hasSchema _ := []

lemma length_nodeName (i : Nat) : (nodeName i).length = i + 1 := by
  simp [nodeName, String.length]

lemma nodeName_inj {i j : Nat} (h : nodeName i = nodeName j) : i = j := by
  have := congrArg String.length h
  rw [length_nodeName, length_nodeName] at this
  omega

lemma nodeName_ne_empty (i : Nat) : nodeName i ≠ "" := by
  intro h
  have := congrArg String.length h
  rw [length_nodeName] at this
  simp [String.length] at this

lemma nodeIndex_nodeName (i : Nat) : nodeIndex (nodeName i) = some i := by
  rw [nodeIndex, if_pos]
  · rw [length_nodeName]
    simp
  · refine ⟨by rw [length_nodeName]; omega, ?_⟩
    rw [length_nodeName, nodeName]

lemma chainStore_selfLookup (L i : Nat) (h : i < L) :
    (chainStore L).selfLookup (nodeName i) = [chainRec i] := by
  simp [chainStore, nodeIndex_nodeName, h]

lemma chainStore_subclassOf (L i : Nat) :
    (chainStore L).subclassOf (nodeName i) =
      if i + 1 < L then [chainRec (i + 1)] else [] := by
  simp [chainStore, nodeIndex_nodeName]

/-- The chain segment starting at node `s`, of `n` records. -/
def chainSeg (s n : Nat) : List CategoryRecord :=
  (List.range n).map (fun k => chainRec (s + k))

lemma chainSeg_zero (s : Nat) : chainSeg s 0 = [] := rfl

lemma chainSeg_succ (s n : Nat) :
    chainSeg s (n + 1) = chainRec s :: chainSeg (s + 1) n := by
  rw [chainSeg, List.range_succ_eq_map, List.map_cons, List.map_map]
  refine congrArg₂ _ (by simp) ?_
  refine List.map_congr_left ?_
  intro k _
  simp [Function.comp]
  congr 1
  omega

lemma chainSeg_titles_nodup (s n : Nat) :
    ((chainSeg s n).map (fun r => r.title)).Nodup := by
  rw [chainSeg, List.map_map]
  refine List.Nodup.map ?_ (List.nodup_range n)
  intro a b h
  simp [Function.comp, chainRec] at h
  have := nodeName_inj h
  omega

lemma chainSeg_titles_lb (s n : Nat) (j : Nat) (hj : j < s) :
    nodeName j ∉ (chainSeg s n).map (fun r => r.title) := by
  intro hmem
  rw [chainSeg, List.map_map] at hmem
  obtain ⟨k, -, hk⟩ := List.mem_map.mp hmem
  simp [Function.comp, chainRec] at hk
  have := nodeName_inj hk
  omega

/-- Dedup leaves a list alone when its titles are truthy, pairwise distinct,
and disjoint from the seen set. -/
lemma dedupByTitleGo_eq_self : ∀ (l : List CategoryRecord) (seen : List String),
    (∀ r ∈ l, r.title ≠ "" ∧ r.title ∉ seen) →
    ((l.map (fun r => r.title)).Nodup) →
    dedupByTitleGo seen l = l
  | [], _, _, _ => rfl
  | item :: rest, seen, hall, hnd => by
    rw [dedupByTitleGo]
    have hitem := hall item (List.mem_cons_self _ _)
    rw [if_pos hitem]
    refine congrArg _ ?_
    refine dedupByTitleGo_eq_self rest (seen ++ [item.title]) ?_ ?_
    · intro r hr
      rcases hall r (List.mem_cons_of_mem _ hr) with ⟨h1, h2⟩
      refine ⟨h1, ?_⟩
      rw [List.mem_append]
      push_neg
      refine ⟨h2, ?_⟩
      rw [List.map_cons, List.nodup_cons] at hnd
      intro hc
      simp at hc
      exact hnd.1 (hc ▸ List.mem_map.mpr ⟨r, hr, rfl⟩)
    · rw [List.map_cons, List.nodup_cons] at hnd
      exact hnd.2

lemma chainSeg_mem (s n : Nat) (r : CategoryRecord) (h : r ∈ chainSeg s n) :
    ∃ k, k < n ∧ r = chainRec (s + k) := by
  rw [chainSeg] at h
  obtain ⟨k, hk, hr⟩ := List.mem_map.mp h
  exact ⟨k, List.mem_range.mp hk, hr.symm⟩

lemma nodeName_ne {a b : Nat} (hab : a ≠ b) : nodeName a ≠ nodeName b :=
  fun h => hab (nodeName_inj h)

/-- Shape of the dedup input produced along the chain: the parent contributes
`chainRec i` and `chainRec (i+1)`, the recursive call contributes
`chainRec (i+1)` again followed by deeper records; dedup drops exactly the
duplicated child. -/
lemma dedup_chain_shape (i k : Nat) :
    dedupByTitle (chainRec i :: chainRec (i + 1) :: chainRec (i + 1) :: chainSeg (i + 2) k) =
      chainRec i :: chainRec (i + 1) :: chainSeg (i + 2) k := by
  have h1 : (chainRec i).title ≠ "" ∧ (chainRec i).title ∉ ([] : List String) :=
    ⟨nodeName_ne_empty i, by simp⟩
  have h2 : (chainRec (i + 1)).title ≠ "" ∧
      (chainRec (i + 1)).title ∉ ([] : List String) ++ [(chainRec i).title] := by
    refine ⟨nodeName_ne_empty (i + 1), ?_⟩
    simp [chainRec]
    exact nodeName_ne (by omega)
  have h3 : ¬ ((chainRec (i + 1)).title ≠ "" ∧
      (chainRec (i + 1)).title ∉ (([] : List String) ++ [(chainRec i).title]) ++
        [(chainRec (i + 1)).title]) := by
    intro hcon
    exact hcon.2 (by simp)
  have hrest : ∀ r ∈ chainSeg (i + 2) k, r.title ≠ "" ∧
      r.title ∉ (([] : List String) ++ [(chainRec i).title]) ++ [(chainRec (i + 1)).title] := by
    intro r hr
    obtain ⟨j, -, hj⟩ := chainSeg_mem _ _ _ hr
    subst hj
    refine ⟨nodeName_ne_empty _, ?_⟩
    simp [chainRec]
    exact ⟨nodeName_ne (by omega), nodeName_ne (by omega)⟩
  rw [dedupByTitle, dedupByTitleGo, if_pos h1, dedupByTitleGo, if_pos h2,
    dedupByTitleGo, if_neg h3,
    dedupByTitleGo_eq_self _ _ hrest (chainSeg_titles_nodup _ _)]

/-- Behaviour of `get_subcategoriesF` along the chain, by induction on fuel:
starting from node `i` with fuel `fuel + 1`, the call returns the chain
records from node `i` down to node `min (i + fuel + 1) (L - 1)` and logs one
truncation warning naming node `i + fuel + 1` exactly when the chain goes
deeper than the fuel allows. -/
lemma chain_gsubF (L m : Nat) : ∀ (fuel i : Nat), i < L →
    (get_subcategoriesF (chainStore L) m (fuel + 1) (nodeName i)).2 =
      ((if i + fuel + 1 < L then [truncMsg m (nodeName (i + fuel + 1))] else []),
       Except.ok (chainSeg i (min (fuel + 2) (L - i)))) := by
  intro fuel
  induction fuel with
  | zero =>
    intro i hi
    rw [get_subcategoriesF]
    rw [chainStore_selfLookup L i hi]
    simp only [chainStore_subclassOf]
    by_cases hil : i + 1 < L
    · rw [if_pos hil]
      rw [subcatLoop, if_neg (by simp [chainRec]; exact nodeName_ne_empty (i + 1))]
      rw [show (chainRec (i + 1)).title = nodeName (i + 1) from rfl]
      rw [get_subcategoriesF]
      rw [subcatLoop]
      have hmin : min 2 (L - i) = 2 := by omega
      have hseg : chainSeg i 2 = [chainRec i, chainRec (i + 1)] := by
        rw [chainSeg_succ, chainSeg_succ, chainSeg_zero]
      simp only [hmin, hseg]
      rw [if_pos (by omega : i + 0 + 1 < L)]
      rw [show i + 0 + 1 = i + 1 from by omega]
      have hded : dedupByTitle [chainRec i, chainRec (i + 1)] =
          [chainRec i, chainRec (i + 1)] := by
        refine dedupByTitleGo_eq_self _ _ ?_ ?_
        · intro r hr
          rcases List.mem_cons.mp hr with h | h
          · subst h; exact ⟨nodeName_ne_empty i, by simp⟩
          · rcases List.mem_cons.mp h with h | h
            · subst h; exact ⟨nodeName_ne_empty (i + 1), by simp⟩
            · simp at h
        · simp [chainRec]
          exact nodeName_ne (by omega)
      simp [hded]
    · rw [if_neg hil]
      rw [subcatLoop]
      have hmin : min 2 (L - i) = 1 := by omega
      have hseg : chainSeg i 1 = [chainRec i] := by
        rw [chainSeg_succ, chainSeg_zero]
      simp only [hmin, hseg]
      rw [if_neg (by omega : ¬ i + 0 + 1 < L)]
      have hded : dedupByTitle [chainRec i] = [chainRec i] := by
        refine dedupByTitleGo_eq_self _ _ ?_ ?_
        · intro r hr
          rcases List.mem_cons.mp hr with h | h
          · subst h; exact ⟨nodeName_ne_empty i, by simp⟩
          · simp at h
        · simp
      simp [hded]
  | succ n ih =>
    intro i hi
    rw [get_subcategoriesF]
    rw [chainStore_selfLookup L i hi]
    simp only [chainStore_subclassOf]
    by_cases hil : i + 1 < L
    · rw [if_pos hil]
      rw [subcatLoop, if_neg (by simp [chainRec]; exact nodeName_ne_empty (i + 1))]
      rw [show (chainRec (i + 1)).title = nodeName (i + 1) from rfl]
      rcases hrec : get_subcategoriesF (chainStore L) m (n + 1) (nodeName (i + 1))
        with ⟨qs₁, ws₁, res₁⟩
      have hih := ih (i + 1) hil
      rw [hrec] at hih
      simp only [Prod.mk.injEq] at hih
      obtain ⟨hws, hres⟩ := hih
      subst hws
      subst hres
      rw [subcatLoop]
      have hk : min (n + 2) (L - (i + 1)) = min (n + 1) (L - (i + 2)) + 1 := by omega
      rw [hk, chainSeg_succ]
      have hfin : min (n + 1 + 2) (L - i) = min (n + 1) (L - (i + 2)) + 2 := by omega
      rw [hfin]
      rw [show i + (n + 1) + 1 = i + 1 + n + 1 from by omega]
      have hsegfin : chainSeg i (min (n + 1) (L - (i + 2)) + 2) =
          chainRec i :: chainRec (i + 1) :: chainSeg (i + 2) (min (n + 1) (L - (i + 2))) := by
        rw [chainSeg_succ, chainSeg_succ]
      rw [hsegfin]
      have hded := dedup_chain_shape i (min (n + 1) (L - (i + 2)))
      simp [hded]
    · rw [if_neg hil]
      rw [subcatLoop]
      have hmin : min (n + 1 + 2) (L - i) = 1 := by omega
      have hseg : chainSeg i 1 = [chainRec i] := by
        rw [chainSeg_succ, chainSeg_zero]
      simp only [hmin, hseg]
      rw [if_neg (by omega : ¬ i + (n + 1) + 1 < L)]
      have hded : dedupByTitle [chainRec i] = [chainRec i] := by
        refine dedupByTitleGo_eq_self _ _ ?_ ?_
        · intro r hr
          rcases List.mem_cons.mp hr with h | h
          · subst h; exact ⟨nodeName_ne_empty i, by simp⟩
          · simp at h
        · simp
      simp [hded]

/-! ### Shape of successful traversal results -/

/-- A successful `get_subcategoriesF` call returns either the empty truncation
result or a deduplicated list. -/
lemma gsubF_ok_shape (store : Store) (m fuel : Nat) (c : String)
    (qs : List AskQuery) (ws : List String) (l : List CategoryRecord)
    (h : get_subcategoriesF store m fuel c = (qs, ws, Except.ok l)) :
    l = [] ∨ ∃ items, l = dedupByTitle items := by
  cases fuel with
  | zero =>
    rw [get_subcategoriesF] at h
    simp only [Prod.mk.injEq, Except.ok.injEq] at h
    exact Or.inl h.2.2.symm
  | succ fuel =>
    rw [get_subcategoriesF] at h
    rcases hsl : store.selfLookup c with _ | ⟨r1, rest1⟩
    · rw [hsl] at h
      simp at h
    · rw [hsl] at h
      simp only at h
      rcases hloop : subcatLoop (fun t => get_subcategoriesF store m fuel t)
        (store.subclassOf c) with ⟨qs₂, ws₂, res₂⟩
      rw [hloop] at h
      cases res₂ with
      | error e => simp at h
      | ok subs =>
        simp only [Prod.mk.injEq, Except.ok.injEq] at h
        exact Or.inr ⟨_, h.2.2.symm⟩

/-- Titles in a successful `get_subcategories` result are pairwise distinct. -/
lemma gsub_ok_nodup (store : Store) (c : String) (depth max_depth : Nat)
    (qs : List AskQuery) (ws : List String) (l : List CategoryRecord)
    (h : get_subcategories store c depth max_depth = (qs, ws, Except.ok l)) :
    (l.map (fun r => r.title)).Nodup := by
  rcases gsubF_ok_shape _ _ _ _ _ _ _ h with hl | ⟨items, hl⟩
  · subst hl; simp
  · subst hl; exact dedupByTitleGo_nodup _ _

/-- Keeping the head: dedup of a list headed by a truthy-titled record keeps
that record first. -/
lemma dedupByTitle_cons (r : CategoryRecord) (xs : List CategoryRecord)
    (h : r.title ≠ "") :
    dedupByTitle (r :: xs) = r :: dedupByTitleGo ([] ++ [r.title]) xs := by
  rw [dedupByTitle, dedupByTitleGo, if_pos ⟨h, by simp⟩]

/-- A successful `get_subcategories` call at depth 0 on an existing category
returns the first self-lookup row as its first element. -/
lemma gsub_ok_head (store : Store) (C : String) (max_depth : Nat)
    (r : CategoryRecord) (rest : List CategoryRecord)
    (qs : List AskQuery) (ws : List String) (l : List CategoryRecord)
    (hself : store.selfLookup C = r :: rest) (hr : r.title ≠ "")
    (hok : get_subcategories store C 0 max_depth = (qs, ws, Except.ok l)) :
    ∃ tail, l = r :: tail := by
  rw [get_subcategories] at hok
  rw [show max_depth + 1 - 0 = max_depth + 1 from rfl] at hok
  rw [get_subcategoriesF, hself] at hok
  simp only at hok
  rcases hloop : subcatLoop (fun t => get_subcategoriesF store max_depth max_depth t)
    (store.subclassOf C) with ⟨qs₂, ws₂, res₂⟩
  rw [hloop] at hok
  cases res₂ with
  | error e => simp at hok
  | ok subs =>
    simp only [Prod.mk.injEq, Except.ok.injEq] at hok
    obtain ⟨-, -, hl⟩ := hok
    refine ⟨dedupByTitleGo ([] ++ [r.title]) (store.subclassOf C ++ subs), ?_⟩
    rw [← hl]
    rw [show (r :: store.subclassOf C) ++ subs =
      r :: (store.subclassOf C ++ subs) from by simp]
    exact dedupByTitle_cons _ _ hr

/-- Projection version of `gsub_ok_head`. -/
lemma gsub_ok_head2 (store : Store) (C : String) (max_depth : Nat)
    (r : CategoryRecord) (rest l : List CategoryRecord)
    (hself : store.selfLookup C = r :: rest) (hr : r.title ≠ "")
    (hok : (get_subcategories store C 0 max_depth).2.2 = Except.ok l) :
    ∃ tail, l = r :: tail := by
  rcases he : get_subcategories store C 0 max_depth with ⟨qs, ws, res⟩
  rw [he] at hok
  cases res with
  | error e => simp at hok
  | ok l' =>
    simp only [Except.ok.injEq] at hok
    subst hok
    exact gsub_ok_head store C max_depth r rest qs ws l' hself hr he

/-- Projection version of `gsub_ok_nodup`. -/
lemma gsub_ok_nodup2 (store : Store) (c : String) (depth max_depth : Nat)
    (l : List CategoryRecord)
    (h : (get_subcategories store c depth max_depth).2.2 = Except.ok l) :
    (l.map (fun r => r.title)).Nodup := by
  rcases he : get_subcategories store c depth max_depth with ⟨qs, ws, res⟩
  rw [he] at h
  cases res with
  | error e => simp at h
  | ok l' =>
    simp only [Except.ok.injEq] at h
    subst h
    exact gsub_ok_nodup store c depth max_depth qs ws l' he

/-- Decomposition of a successful `get_subcategories_and_metacategories`
result: subcategory rows first, then all meta-category rows. -/
lemma gsam_ok_elems (store : Store) (c : String) (m : Nat)
    (sm : List CategoryRecord)
    (h : (get_subcategories_and_metacategories store c m).2.2 = Except.ok sm) :
    ∃ subcats, (get_subcategories store c 0 m).2.2 = Except.ok subcats ∧
      sm = subcats ++ (subcats.filter (fun s => s.title ≠ "")).flatMap
        (fun s => store.metaCategoryOf s.title) := by
  rcases hgs : get_subcategories store c 0 m with ⟨qs, ws, res⟩
  rw [get_subcategories_and_metacategories, hgs] at h
  cases res with
  | error e => simp at h
  | ok subcats =>
    simp only [Except.ok.injEq] at h
    exact ⟨subcats, rfl, h.symm⟩

/-- Decomposition of a successful `get_all_instances_and_subcategories`
result: dedup of category rows followed by all their instance rows. -/
lemma gall_ok_elems (store : Store) (c : String) (m : Nat)
    (l : List CategoryRecord)
    (h : (get_all_instances_and_subcategories store c m).2.2 = Except.ok l) :
    ∃ sm, (get_subcategories_and_metacategories store c m).2.2 = Except.ok sm ∧
      l = dedupByTitle (sm ++ (sm.filter (fun s => s.title ≠ "")).flatMap
        (fun s => (get_instances store s.title).2)) := by
  rcases hsm : get_subcategories_and_metacategories store c m with ⟨qs0, ws0, res0⟩
  rw [get_all_instances_and_subcategories, hsm] at h
  cases res0 with
  | error e => simp at h
  | ok sm =>
    simp only [Except.ok.injEq] at h
    exact ⟨sm, rfl, h.symm⟩

/-! ### Concrete stores used as inputs of the claims -/

/-- A store with no rows at all. -/
def emptyStore : Store where
  selfLookup _ := []
  subclassOf _ := []
  metaCategoryOf _ := []
  hasSchema _ := []

def cycRecA : CategoryRecord := { title := "A", name := "nA" }

def cycRecB : CategoryRecord := { title := "B", name := "nB" }

/-- The cyclic subclass relation A→B→A of spec §8.4. -/
def cycleStore : Store where
  selfLookup t := if t = "A" then [cycRecA] else if t = "B" then [cycRecB] else []
  subclassOf t := if t = "A" then [cycRecB] else if t = "B" then [cycRecA] else []
  metaCategoryOf _ := []
  hasSchema _ := []

def recM : CategoryRecord := { title := "M", name := "nM" }

/-- A store where categories A and B (B a subclass of A) share the
meta-category M. -/
def storeCx : Store where
  selfLookup t := if t = "A" then [cycRecA] else if t = "B" then [cycRecB] else []
  subclassOf t := if t = "A" then [cycRecB] else []
  metaCategoryOf t := if t = "A" then [recM] else if t = "B" then [recM] else []
  hasSchema _ := []

def recA7 : CategoryRecord := { title := "Cat:A", name := "Alpha" }

def recB7 : CategoryRecord := { title := "Cat:B", name := "Beta" }

def recI7 : CategoryRecord := { title := "Item:1", name := "One" }

/-- The mock store of spec §8.7: `Cat:A` has subclass `Cat:B` (name "Beta"),
and `Item:1` (name "One") has schema `Cat:B`. -/
def storeC7 : Store where
  selfLookup t := if t = "Cat:A" then [recA7] else if t = "Cat:B" then [recB7] else []
  subclassOf t := if t = "Cat:A" then [recB7] else []
  metaCategoryOf _ := []
  hasSchema t := if t = "Cat:B" then [recI7] else []

def cRec6 : CategoryRecord := { title := "C", name := "n" }

/-- A store where the record titled `C` is returned both by the self-lookup
and by the schema-assignment query for `C`. -/
def storeC6 : Store where
  selfLookup t := if t = "C" then [cRec6] else []
  subclassOf _ := []
  metaCategoryOf _ := []
  hasSchema t := if t = "C" then [cRec6] else []

/-! ### Claims -/

/-- C1, counterexample: on `storeCx` the list returned by
`get_subcategories_and_metacategories` contains the identifier `M` twice —
the meta-category extension (lines 151-163) is not deduplicated, refuting the
claim that every traversal operation returns each identifier at most once. -/
theorem c1_counterexample :
    (get_subcategories_and_metacategories storeCx "A" 5).2.2 =
      Except.ok [cycRecA, cycRecB, recM, recM] ∧
    ¬ (([cycRecA, cycRecB, recM, recM].map (fun r => r.title)).Nodup) :=
  ⟨rfl, by decide⟩

/-- C1, amended: `get_subcategories` and
`get_all_instances_and_subcategories` return each identifier at most once, and
`dedupByTitle` keeps exactly the first occurrence of each identifier;
`get_subcategories_and_metacategories` is excluded (see the counterexample). -/
theorem c1_amended_dedup (store : Store) (c : String) (depth max_depth : Nat)
    (l l' items : List CategoryRecord) :
    ((get_subcategories store c depth max_depth).2.2 = Except.ok l →
      (l.map (fun r => r.title)).Nodup) ∧
    ((get_all_instances_and_subcategories store c max_depth).2.2 = Except.ok l' →
      (l'.map (fun r => r.title)).Nodup) ∧
    (∀ r ∈ dedupByTitle items, items.find? (fun x => x.title == r.title) = some r) := by
  refine ⟨?_, ?_, ?_⟩
  · intro h
    exact gsub_ok_nodup2 store c depth max_depth l h
  · intro h
    obtain ⟨itemsa, -, hl⟩ := gall_ok_elems store c max_depth l' h
    subst hl
    exact dedupByTitleGo_nodup _ _
  · intro r hr
    exact dedupByTitleGo_find items [] r hr

/-- C1, witness: the amended claim applied to the cycle store at `A` with
`max_depth = 10` and to a concrete dedup input. -/
theorem c1_witness :
    (([cycRecA, cycRecB].map (fun r => r.title)).Nodup) ∧
    (([cycRecA, cycRecB].map (fun r => r.title)).Nodup) ∧
    ([cycRecA, cycRecA, cycRecB].find? (fun x => x.title == cycRecA.title) =
      some cycRecA) := by
  obtain ⟨h1, h2, h3⟩ := c1_amended_dedup cycleStore "A" 0 10
    [cycRecA, cycRecB] [cycRecA, cycRecB] [cycRecA, cycRecA, cycRecB]
  exact ⟨h1 rfl, h2 rfl, h3 cycRecA (by decide)⟩

/-- C2, counterexample: on a chain of length 3 with `maxDepth = 1` the node at
depth `2 > maxDepth` is still returned — its record is appended by its parent
(line 104) before the depth check of the recursive call truncates descent — so
the claim that all nodes at depth > maxDepth are excluded fails. -/
theorem c2_counterexample :
    (get_subcategories (chainStore 3) (nodeName 0) 0 1).2.2 =
      Except.ok [chainRec 0, chainRec 1, chainRec 2] ∧
    (chainRec 2).title ∈ ([chainRec 0, chainRec 1, chainRec 2].map
      (fun r => r.title)) :=
  ⟨rfl, by decide⟩

/-- C2, amended: on a chain of `L ≥ 1` nodes, `get_subcategories` from the
root with bound `maxDepth = m` returns exactly the nodes at depth
`≤ min (m + 1) (L - 1)` — every node at depth ≤ maxDepth, plus the node at
depth maxDepth + 1 whose record its parent appended before descent was cut —
and logs the truncation warning exactly once, naming the node at depth
`m + 1`, precisely when the chain is deeper than `m + 1`. -/
theorem c2_amended_depth (L m : Nat) (hL : 1 ≤ L) :
    (get_subcategories (chainStore L) (nodeName 0) 0 m).2 =
      ((if m + 1 < L then [truncMsg m (nodeName (m + 1))] else []),
       Except.ok (chainSeg 0 (min (m + 2) L))) := by
  rw [get_subcategories]
  rw [show m + 1 - 0 = m + 1 from rfl]
  have h := chain_gsubF L m m 0 (by omega)
  simp only [Nat.zero_add, Nat.sub_zero] at h
  exact h

/-- C2, witness: the amended claim on the chain of length 4 with
`maxDepth = 1`: nodes 0, 1, 2 are returned and one warning names node 2. -/
theorem c2_witness :
    (get_subcategories (chainStore 4) (nodeName 0) 0 1).2 =
      ([truncMsg 1 (nodeName 2)], Except.ok [chainRec 0, chainRec 1, chainRec 2]) :=
  (c2_amended_depth 4 1 (by decide)).trans (by rfl)

/-- C3: when the self-lookup for the supplied identifier returns no rows,
`get_subcategories` raises `ValueError` carrying that identifier after issuing
only the single self-lookup query, and the error propagates uncaught through
`get_subcategories_and_metacategories`. -/
theorem c3_not_found (store : Store) (category_fpt : String) (max_depth : Nat)
    (h : store.selfLookup category_fpt = []) :
    get_subcategories store category_fpt 0 max_depth =
      ([AskQuery.selfQ category_fpt], [],
       Except.error (Err.valueError ("Category " ++ category_fpt ++ " not found"))) ∧
    get_subcategories_and_metacategories store category_fpt max_depth =
      ([AskQuery.selfQ category_fpt], [],
       Except.error (Err.valueError ("Category " ++ category_fpt ++ " not found"))) := by
  have h1 : get_subcategories store category_fpt 0 max_depth =
      ([AskQuery.selfQ category_fpt], [],
       Except.error (Err.valueError ("Category " ++ category_fpt ++ " not found"))) := by
    rw [get_subcategories]
    rw [show max_depth + 1 - 0 = max_depth + 1 from rfl]
    rw [get_subcategoriesF, h]
  refine ⟨h1, ?_⟩
  rw [get_subcategories_and_metacategories, h1]

/-- C3, witness: `get_subcategories("NonexistentCategory", max_depth=5)` on
the empty store raises and issues no subclass query. -/
theorem c3_witness :
    emptyStore.selfLookup "NonexistentCategory" = [] ∧
    get_subcategories emptyStore "NonexistentCategory" 0 5 =
      ([AskQuery.selfQ "NonexistentCategory"], [],
       Except.error (Err.valueError "Category NonexistentCategory not found")) := by
  refine ⟨rfl, ?_⟩
  exact ((c3_not_found emptyStore "NonexistentCategory" 5 rfl).1).trans (by rfl)

/-- C4: on the cyclic subclass relation A→B→A, `get_subcategories(A, 10)`
terminates (it is a total function) and returns exactly the records of A and
B, each once, with no error. -/
theorem c4_cycle_safety :
    (get_subcategories cycleStore "A" 0 10).2.2 = Except.ok [cycRecA, cycRecB] :=
  rfl

/-- C5: for a category existing in the store (self-lookup returns a row whose
title is the requested identifier), a successful `get_subcategories` call
returns that row as its first element. -/
theorem c5_self_inclusion (store : Store) (C : String) (max_depth : Nat)
    (r : CategoryRecord) (rest l : List CategoryRecord)
    (hself : store.selfLookup C = r :: rest) (hr : r.title = C) (hC : C ≠ "")
    (hok : (get_subcategories store C 0 max_depth).2.2 = Except.ok l) :
    l.head? = some r := by
  obtain ⟨tail, htail⟩ := gsub_ok_head2 store C max_depth r rest l hself
    (by rw [hr]; exact hC) hok
  subst htail
  rfl

/-- C5, witness: the mock store of §8.7 at `Cat:A` with `max_depth = 5`. -/
theorem c5_witness :
    storeC7.selfLookup "Cat:A" = [recA7] ∧
    (get_subcategories storeC7 "Cat:A" 0 5).2.2 = Except.ok [recA7, recB7] ∧
    ([recA7, recB7] : List CategoryRecord).head? = some recA7 := by
  refine ⟨rfl, rfl, ?_⟩
  exact c5_self_inclusion storeC7 "Cat:A" 5 recA7 [] [recA7, recB7] rfl rfl
    (by decide) rfl

/-- C6: a record whose title is returned once by the self-lookup and once by
the schema-assignment query for `C` appears exactly twice in
`get_instances(C)` (concatenation, no dedup, lines 183-191) but exactly once
in a successful `get_all_instances_and_subcategories` result (final dedup,
lines 227-235). -/
theorem c6_instance_merge (store : Store) (C : String) (max_depth : Nat)
    (X Xc : CategoryRecord) (rest l : List CategoryRecord)
    (h1 : (store.selfLookup C).countP (fun r => r.title == X.title) = 1)
    (h2 : (store.hasSchema C).countP (fun r => r.title == X.title) = 1)
    (hself : store.selfLookup C = Xc :: rest) (hXc : Xc.title = C) (hC : C ≠ "")
    (hX : X ∈ store.hasSchema C) (hXt : X.title ≠ "")
    (hok : (get_all_instances_and_subcategories store C max_depth).2.2 =
      Except.ok l) :
    (get_instances store C).2.countP (fun r => r.title == X.title) = 2 ∧
    l.countP (fun r => r.title == X.title) = 1 := by
  constructor
  · simp [get_instances, List.countP_append, h1, h2]
  · obtain ⟨sm, hsm, hl⟩ := gall_ok_elems store C max_depth l hok
    obtain ⟨subcats, hgs, hsm_eq⟩ := gsam_ok_elems store C max_depth sm hsm
    obtain ⟨tail, hsub⟩ := gsub_ok_head2 store C max_depth Xc rest subcats hself
      (by rw [hXc]; exact hC) hgs
    subst hl
    apply dedupByTitle_countP_eq_one _ _ hXt
    rw [List.map_append]
    refine List.mem_append.mpr (Or.inr ?_)
    refine List.mem_map.mpr ⟨X, ?_, rfl⟩
    refine List.mem_flatMap.mpr ⟨Xc, ?_, ?_⟩
    · rw [hsm_eq, hsub]
      refine List.mem_filter.mpr ⟨?_, ?_⟩
      · exact List.mem_append.mpr (Or.inl (List.mem_cons_self _ _))
      · simp [hXc, hC]
    · rw [hXc]
      simp [get_instances]
      exact Or.inr hX

/-- C6, witness: on `storeC6` the record `cRec6` is returned by both queries
for category `C`; it appears twice in `get_instances` and once in the
aggregate. -/
theorem c6_witness :
    (get_instances storeC6 "C").2.countP (fun r => r.title == cRec6.title) = 2 ∧
    (get_all_instances_and_subcategories storeC6 "C" 5).2.2 =
      Except.ok [cRec6] ∧
    ([cRec6] : List CategoryRecord).countP (fun r => r.title == cRec6.title) = 1 := by
  have h := c6_instance_merge storeC6 "C" 5 cRec6 cRec6 [] [cRec6]
    (by decide) (by decide) rfl rfl (by decide) (by decide) (by decide) rfl
  exact ⟨h.1, rfl, h.2⟩

/-- C7: on the §8.7 mock store,
`append_all_subcategories_and_instances_to_string("", "Cat:A", store)`
produces the manifest containing the lines for `Cat:A` (named Alpha),
`Cat:B` (named Beta) and `Item:1` (named One), in that relative order. -/
theorem c7_manifest :
    append_all_subcategories_and_instances_to_string "" "Cat:A" storeC7 =
      Except.ok ("\n# Alpha and all subcategories and instances\n" ++
        "\"Cat:A\",  # Alpha\n" ++ "\"Cat:B\",  # Beta\n" ++ "\"Item:1\",  # One\n") :=
  rfl

/-! ### Ontology-alignment enrichment (`add_ontology_matches.py`, lines 66-87) -/

/-- One result row of the SPARQL prefLabel/altLabel query (lines 72-79). -/
structure OntRow where
  prefLabel : String
  altLabel : Option String
deriving DecidableEq, Repr

/-- The fields of a local entity touched by the enrichment loop: its IRI
(`entity.get_iri()`, unchanged by the loop), the `exact_ontology_match`
attribute (a singleton set in Python, one optional IRI here) and `name`. -/
structure OslEntity where
  iri : String
  exact_ontology_match : Option String
  name : String
deriving DecidableEq, Repr

/-- The per-entity enrichment step (lines 66-87): when the entity's IRI is a
key of the mapping `data`, set `exact_ontology_match` to the mapped IRI, then
for each row of the SPARQL lookup `g` for that IRI overwrite `name` with the
row's `prefLabel` (loop of lines 84-87; with several rows the last wins; with
none, `name` is untouched). -/
def enrichEntity (data : String → Option String) (g : String → List OntRow)
    (entity : OslEntity) : OslEntity :=
  match data entity.iri with
  | none => entity
  | some m =>
    (g m).foldl (fun acc row => { acc with name := row.prefLabel })
      { entity with exact_ontology_match := some m }

/-- The name-overwriting fold only rewrites the `name` field. -/
lemma enrich_foldl (rows : List OntRow) (e : OslEntity) :
    rows.foldl (fun acc row => { acc with name := row.prefLabel }) e =
      { e with name := rows.foldl (fun _ row => row.prefLabel) e.name } := by
  induction rows generalizing e with
  | nil => rfl
  | cons a l ih => rw [List.foldl_cons, List.foldl_cons, ih]

/-- C8: the per-entity enrichment step is idempotent — applying it twice with
the same mapping and graph yields the same entity state as applying it once. -/
theorem c8_idempotent (data : String → Option String) (g : String → List OntRow)
    (e : OslEntity) :
    enrichEntity data g (enrichEntity data g e) = enrichEntity data g e := by
  rcases hm : data e.iri with _ | m
  · simp only [enrichEntity, hm]
  · simp only [enrichEntity, hm, enrich_foldl]
    rcases hg : g m with _ | ⟨a, rows⟩
    · simp
    · simp [List.foldl_cons]

/-- C9: for a category whose self-lookup returns rows, `get_instances` puts
the first self-lookup row (the category's own record) first, before the
schema-assigned instances, and `append_instances_to_string` prints that first
element as the header, rendering only the remaining elements. -/
theorem c9_instances_self_first (store : Store) (C : String)
    (r : CategoryRecord) (rest : List CategoryRecord) (s : String)
    (hself : store.selfLookup C = r :: rest) :
    (get_instances store C).2 = (r :: rest) ++ store.hasSchema C ∧
    (get_instances store C).2.head? = some r ∧
    append_instances_to_string s C store =
      some (s ++ "\n# Instances of " ++ r.name ++ "\n" ++
        String.join ((rest ++ store.hasSchema C).map renderLine)) := by
  refine ⟨?_, ?_, ?_⟩ <;> simp [get_instances, append_instances_to_string, hself]

/-- C9, witness: the claim applied to `storeC7` at `Cat:B`. -/
theorem c9_witness :
    (get_instances storeC7 "Cat:B").2 = [recB7, recI7] ∧
    (get_instances storeC7 "Cat:B").2.head? = some recB7 ∧
    append_instances_to_string "" "Cat:B" storeC7 =
      some ("\n# Instances of Beta\n" ++ "\"Item:1\",  # One\n") := by
  have h := c9_instances_self_first storeC7 "Cat:B" recB7 [] "" rfl
  exact ⟨h.1.trans (by rfl), h.2.1, (h.2.2).trans (by rfl)⟩

/-- C10: `get_instances` performs no existence check — with no matching rows
it returns the empty list (a value, not an exception) — while
`append_instances_to_string` and `append_dict_to_string` fail (the modelled
`IndexError` of `instances[0]` / `dict_list[0]`, i.e. `none`) on an empty
record list and succeed whenever the record list is non-empty. -/
theorem c10_no_existence_check (store : Store) (C : String) (s note : String)
    (r0 : CategoryRecord) (rl : List CategoryRecord) :
    (store.selfLookup C = [] → store.hasSchema C = [] →
      (get_instances store C).2 = [] ∧
      append_instances_to_string s C store = none) ∧
    append_dict_to_string s [] note = none ∧
    append_dict_to_string s (r0 :: rl) note =
      some (s ++ "\n# " ++ r0.name ++ " " ++ note ++ "\n" ++
        String.join ((r0 :: rl).map renderLine)) := by
  refine ⟨?_, rfl, rfl⟩
  intro h1 h2
  constructor
  · simp [get_instances, h1, h2]
  · simp [append_instances_to_string, get_instances, h1, h2]

/-- C10, witness: the empty store at an unknown identifier, and the renderers
on empty and non-empty lists. -/
theorem c10_witness :
    (get_instances emptyStore "X").2 = [] ∧
    append_instances_to_string "" "X" emptyStore = none ∧
    append_dict_to_string "" [] "note" = none ∧
    append_dict_to_string "" [cRec6] "note" =
      some ("" ++ "\n# " ++ cRec6.name ++ " " ++ "note" ++ "\n" ++
        String.join ([cRec6].map renderLine)) := by
  obtain ⟨hA, hB, hD⟩ := c10_no_existence_check emptyStore "X" "" "note" cRec6 []
  obtain ⟨x, y⟩ := hA rfl rfl
  exact ⟨x, y, hB, hD⟩
